import Mathlib

/-!
Shallow embedding of the client-side reconciliation logic of
`app/components/DashboardClient.tsx` (orange-mission-control).

Pure functions of the component (`guessNickname`, `withNicknames`,
`classifyEvent`, `isStatusKind`, `feedCounts`, `taskStageToMissionStatus`,
`missionStatusToTaskStage`, `uid`) are translated directly.  Stateful
handlers (`moveTask`, `addTask`, `addLead`, `moveLead`, the mission-events
polling effect) are translated as explicit state-passing functions whose
extra parameters stand for the environment the code reads: the current
wall clock (`now`), the random part of `uid` (`rand`), the presence of the
workspace/user context, and the outcome of each remote call
(`Except String _`, since the remote client reports errors as values).
JavaScript string truthiness (`x || y` on strings) is modelled explicitly.
-/

namespace MissionControl

/-- Models JavaScript `s.trim() || undefined` on an already-trimmed string:
an empty string is falsy and becomes `undefined` (`none`). -/
def strOpt (s : String) : Option String :=
  if s = "" then none else some s

/-- ASCII lowercasing, models `String.prototype.toLowerCase` on the ASCII
data this program handles (kept structural so the kernel can evaluate it). -/
def strToLower (s : String) : String :=
  String.mk (s.data.map Char.toLower)

/-- Whitespace trimmed by `String.prototype.trim` (ASCII subset). -/
def isTrimmable (c : Char) : Bool :=
  c = ' ' || c = '\t' || c = '\n' || c = '\r'

/-- Models `String.prototype.trim` (structural). -/
def jsTrim (s : String) : String :=
  String.mk (((s.data.dropWhile isTrimmable).reverse.dropWhile isTrimmable).reverse)

/-- Models `s.startsWith(p)` (structural). -/
def strStartsWith (s p : String) : Bool :=
  p.data.isPrefixOf s.data

/-- Models `s.endsWith(p)` (structural). -/
def strEndsWith (s p : String) : Bool :=
  p.data.reverse.isPrefixOf s.data.reverse

/-- Helper of `splitComma`: `acc` holds the current chunk reversed. -/
def splitCommaAux : List Char → List Char → List String
  | [], acc => [String.mk acc.reverse]
  | c :: rest, acc =>
    if c = ',' then String.mk acc.reverse :: splitCommaAux rest []
    else splitCommaAux rest (c :: acc)

/-- Models `s.split(",")` (note `"".split(",") = [""]`). -/
def splitComma (s : String) : List String :=
  splitCommaAux s.data []

/-- `containsSeq sub l` is true when the character list `sub` occurs
contiguously inside `l`; models `String.prototype.includes`. -/
def containsSeq (sub : List Char) : List Char → Bool
  | [] => sub.isEmpty
  | c :: rest => sub.isPrefixOf (c :: rest) || containsSeq sub rest

/-- `strIncludes hay sub` models JavaScript `hay.includes(sub)`. -/
def strIncludes (hay sub : String) : Bool :=
  containsSeq sub.data hay.data

/-- One lowercase hexadecimal digit, as produced by `Number.toString(16)`. -/
def hexDigit (n : Nat) : Char :=
  if n < 10 then Char.ofNat (48 + n) else Char.ofNat (87 + n)

/-- Hexadecimal digit string of a natural number, most significant digit
first; models `Date.now().toString(16)` on a nonnegative integer. -/
def hexChars (n : Nat) : List Char :=
  if _h : n < 16 then [hexDigit n]
  else hexChars (n / 16) ++ [hexDigit (n % 16)]
decreasing_by
  exact Nat.div_lt_self (Nat.pos_of_ne_zero (by omega)) (by omega)

/-- Numeric value of a hex digit character (inverse of `hexDigit`). -/
def hexVal (c : Char) : Nat :=
  if c.toNat ≥ 97 then c.toNat - 87 else c.toNat - 48

/-- Reads a hex digit list back to a number. -/
def hexDecode (l : List Char) : Nat :=
  l.foldl (fun acc c => acc * 16 + hexVal c) 0

/-- Source `uid()`: `Math.random().toString(16).slice(2) + Date.now().toString(16)`.
The random part (after `slice(2)`, possibly empty) is the parameter `rand`;
the clock reading is `now`. -/
def uid (rand : String) (now : Nat) : String :=
  rand ++ String.mk (hexChars now)

/-! ## Task stages and the remote mission status enumeration -/

/-- Source `TaskStage` union type. -/
inductive TaskStage
  | inbox
  | assigned
  | in_progress
  | review
  | done
deriving DecidableEq, Repr

/-- Source `MissionStatus` union type. -/
inductive MissionStatus
  | INBOX
  | ASSIGNED
  | IN_PROGRESS
  | REVIEW
  | DONE
deriving DecidableEq, Repr

/-- Source `taskStageToMissionStatus`. -/
def taskStageToMissionStatus : TaskStage → MissionStatus
  | .inbox => .INBOX
  | .assigned => .ASSIGNED
  | .in_progress => .IN_PROGRESS
  | .review => .REVIEW
  | .done => .DONE

/-- Source `missionStatusToTaskStage`. -/
def missionStatusToTaskStage : MissionStatus → TaskStage
  | .INBOX => .inbox
  | .ASSIGNED => .assigned
  | .IN_PROGRESS => .in_progress
  | .REVIEW => .review
  | .DONE => .done

/-! ## Sessions and the identity assignment engine -/

/-- Source `AGENT_NICKNAMES`. -/
def AGENT_NICKNAMES : List String := ["Orbit", "Forge", "Pulse", "Scout", "Ledger"]

/-- Source `SessionItem` (fields used by the identity assignment engine;
`transcriptPath` and `model` are display-only and never read by it). -/
structure SessionItem where
  key : String
  sessionId : String
  label : Option String
  displayName : Option String
  updatedAt : Option Nat
deriving DecidableEq, Repr

/-- The combined haystack built in `guessNickname`:
`` `${s.displayName || ""} ${s.label || ""} ${s.sessionId || ""}`.toLowerCase() ``. -/
def sessionHay (s : SessionItem) : String :=
  strToLower ((s.displayName.getD "") ++ " " ++ (s.label.getD "") ++ " " ++ s.sessionId)

/-- Source `guessNickname`, generalised over the identity pool it scans:
first pool name contained (case-insensitively) in the haystack wins. -/
def guessNicknamePool (pool : List String) (s : SessionItem) : Option String :=
  pool.find? (fun n => strIncludes (sessionHay s) (strToLower n))

/-- Source `guessNickname` (fixed pool `AGENT_NICKNAMES`). -/
def guessNickname (s : SessionItem) : Option String :=
  guessNicknamePool AGENT_NICKNAMES s

/-- The `Map<string,string>` used by `withNicknames`, as an association
list in which a later `set` shadows an earlier one (prepend). -/
def NickMap : Type := List (String × String)

/-- JavaScript `map.set(k, v)` (latest set wins on lookup). -/
def mapSet (m : NickMap) (k v : String) : NickMap := (k, v) :: m

/-- JavaScript `map.get(k)`. -/
def mapGet : NickMap → String → Option String
  | [], _ => none
  | (k, v) :: m, q => if k = q then some v else mapGet m q

/-- JavaScript `map.has(k)`. -/
def mapHas (m : NickMap) (k : String) : Bool :=
  (mapGet m k).isSome

/-- The recency key `(s.updatedAt || 0)`. -/
def updKey (s : SessionItem) : Nat := s.updatedAt.getD 0

/-- Stable descending insertion used to model the JavaScript stable sort
`[...sessions].sort((a, b) => (b.updatedAt || 0) - (a.updatedAt || 0))`:
a new element goes after every existing element whose key is ≥ its own. -/
def insertDesc (s : SessionItem) : List SessionItem → List SessionItem
  | [] => [s]
  | t :: ts => if updKey t < updKey s then s :: t :: ts else t :: insertDesc s ts

/-- Stable sort by descending `updatedAt` (ties keep source order), the
observable behaviour of the JavaScript comparator sort. -/
def sortByRecency (l : List SessionItem) : List SessionItem :=
  l.foldl (fun acc s => insertDesc s acc) []

/-- Pass 1 of `withNicknames`: record explicit matches, in source order. -/
def explicitPass (pool : List String) : List SessionItem → NickMap → NickMap
  | [], m => m
  | s :: rest, m =>
    match guessNicknamePool pool s with
    | some g => explicitPass pool rest (mapSet m s.key g)
    | none => explicitPass pool rest m

/-- Pass 2 of `withNicknames`: walk the recency-sorted list and give each
still-unbound session `pool[i % pool.length]`, advancing `i` only for
sessions bound here. -/
def fillPass (pool : List String) : List SessionItem → NickMap → Nat → NickMap
  | [], m, _ => m
  | s :: rest, m, i =>
    if mapHas m s.key then fillPass pool rest m i
    else fillPass pool rest (mapSet m s.key (pool.getD (i % pool.length) "")) (i + 1)

/-- Source `withNicknames`, generalised over the identity pool. -/
def withNicknamesPool (pool : List String) (sessions : List SessionItem) :
    List (SessionItem × String) :=
  let sorted := sortByRecency sessions
  let m0 := explicitPass pool sessions []
  let m1 := fillPass pool sorted m0 0
  sessions.map (fun s => (s, (mapGet m1 s.key).getD "Agent"))

/-- Source `withNicknames` (fixed pool `AGENT_NICKNAMES`). -/
def withNicknames (sessions : List SessionItem) : List (SessionItem × String) :=
  withNicknamesPool AGENT_NICKNAMES sessions

/-! ## Events and the classifier -/

/-- A remote `events` row as consumed by the mission-events poll
(`id,type,payload,created_at,mission_id`).  The payload object is kept
abstract: its `title` and `status` fields and its serialised form. -/
structure PayloadObj where
  title : Option String
  status : Option String
  rendered : String
deriving DecidableEq, Repr

/-- A row of the remote `events` table; `created_at` is modelled as the
millisecond timestamp it parses to. -/
structure EventRow where
  id : String
  typ : Option String
  payload : Option PayloadObj
  created_at : Option Nat
  mission_id : Option String
deriving DecidableEq, Repr

/-- Source `TranscriptEvent`; `raw` holds the originating row when the
event came from the mission-events poll. -/
structure TranscriptEvent where
  ts : Option Nat
  kind : String
  text : Option String
  tool : Option String
  raw : Option EventRow
deriving DecidableEq, Repr

/-- The six display categories returned by `classifyEvent`. -/
inductive Category
  | tools
  | messages
  | decisions
  | docs
  | status
  | other
deriving DecidableEq, Repr

/-- Source `isStatusKind`. -/
def isStatusKind (kind : String) : Bool :=
  let k := strToLower kind
  k = "session" || k = "status" || strEndsWith k "_change" ||
    strStartsWith k "model_" || strStartsWith k "thinking_"

/-- JavaScript truthiness of `ev.tool` (`!!ev.tool`): present and non-empty. -/
def hasToolVal : Option String → Bool
  | some t => t ≠ ""
  | none => false

/-- Source `classifyEvent`: fixed precedence
tools → messages → decisions → docs → status → other. -/
def classifyEvent (ev : TranscriptEvent) : Category :=
  let kind := strToLower ev.kind
  let hasTool := hasToolVal ev.tool
  if hasTool || kind = "tool" || kind = "tool_call" then .tools
  else if kind = "message" then .messages
  else if strIncludes kind "decision" then .decisions
  else if strIncludes kind "doc" then .docs
  else if isStatusKind kind then .status
  else .other

/-- The record held in the `feedCounts` memo. -/
structure FeedCounts where
  all : Nat
  tools : Nat
  messages : Nat
  decisions : Nat
  docs : Nat
  status : Nat
deriving DecidableEq, Repr

/-- One step of the counting loop in `feedCounts`. -/
def feedStep (c : FeedCounts) (ev : TranscriptEvent) : FeedCounts :=
  match classifyEvent ev with
  | .tools => { c with tools := c.tools + 1 }
  | .messages => { c with messages := c.messages + 1 }
  | .decisions => { c with decisions := c.decisions + 1 }
  | .docs => { c with docs := c.docs + 1 }
  | .status => { c with status := c.status + 1 }
  | .other => c

/-- Source `feedCounts`: `all` is the list length, the loop increments one
per-category counter per event (`other` events count only toward `all`). -/
def feedCounts (events : List TranscriptEvent) : FeedCounts :=
  events.foldl feedStep ⟨events.length, 0, 0, 0, 0, 0⟩

/-! ## Leads (local-only pipeline) -/

/-- Source `LeadStage` union type. -/
inductive LeadStage
  | lead
  | qualified
  | meeting
  | proposal
  | won
  | lost
deriving DecidableEq, Repr

/-- Source `LeadItem`. -/
structure LeadItem where
  id : String
  name : String
  company : String
  role : Option String
  stage : LeadStage
  value : Option String
  nextStep : Option String
  updatedAt : Nat
deriving DecidableEq, Repr

/-- The `newLead` form state. -/
structure NewLeadForm where
  name : String
  company : String
  role : String
  value : String
  nextStep : String
deriving DecidableEq, Repr

/-- Source `moveLead(id, stage)`: a purely local list update (the function
body is a single `setLeads` with a `map`; it performs no remote call). -/
def moveLead (leads : List LeadItem) (id : String) (stage : LeadStage) (now : Nat) :
    List LeadItem :=
  leads.map (fun l => if l.id = id then { l with stage := stage, updatedAt := now } else l)

/-- Source `addLead()`: trims name and company, returns unchanged when
either is empty, otherwise prepends one new lead (`rand`/`now` stand for
the environment read by `uid()` and `Date.now()`). -/
def addLead (form : NewLeadForm) (leads : List LeadItem) (rand : String) (now : Nat) :
    List LeadItem :=
  let name := jsTrim form.name
  let company := jsTrim form.company
  if name = "" ∨ company = "" then leads
  else
    { id := uid rand now
      name := name
      company := company
      role := strOpt (jsTrim form.role)
      stage := .lead
      value := strOpt (jsTrim form.value)
      nextStep := strOpt (jsTrim form.nextStep)
      updatedAt := now } :: leads

/-! ## Tasks, optimistic mutation and the local fallback -/

/-- Source `TaskItem`. -/
structure TaskItem where
  id : String
  title : String
  desc : Option String
  stage : TaskStage
  tags : Option (List String)
  assignee : Option String
  updatedAt : Nat
deriving DecidableEq, Repr

/-- The `newTask` form state. -/
structure NewTaskForm where
  title : String
  desc : String
  assignee : String
  tags : String
deriving DecidableEq, Repr

/-- The empty `newTask` form the handlers reset to. -/
def emptyTaskForm : NewTaskForm := ⟨"", "", "", ""⟩

/-- The slice of component state read and written by `moveTask`. -/
structure MoveState where
  tasks : List TaskItem
  dbError : String
deriving DecidableEq, Repr

/-- Source `moveTask(id, stage)` as a state transformer.  The optimistic
`setTasks` runs first; when no workspace context exists the function
returns there.  Otherwise the remote status update outcome is
`updateResult`; on success the audit-event insert fires but its outcome
(`auditResult`) is never inspected by the code (the remote client reports
failures as values, so they do not reach the `catch`).  On update failure
the `catch` sets `dbError` and restores the pre-mutation snapshot. -/
def moveTask (st : MoveState) (id : String) (stage : TaskStage) (now : Nat)
    (hasWorkspace : Bool) (updateResult : Except String Unit)
    (_auditResult : Except String Unit) : MoveState :=
  let prevTasks := st.tasks
  let optimistic :=
    st.tasks.map (fun t => if t.id = id then { t with stage := stage, updatedAt := now } else t)
  if hasWorkspace then
    match updateResult with
    | .ok _ => { st with tasks := optimistic }
    | .error msg => { tasks := prevTasks, dbError := msg }
  else { st with tasks := optimistic }

/-- A `missions` row as returned by the insert in `addTask`
(`id,title,description,tags,status,updated_at,created_at`); timestamps are
modelled as the milliseconds they parse to. -/
structure MissionRow where
  id : String
  title : String
  description : Option String
  tags : Option (List String)
  updated_at : Option Nat
  created_at : Option Nat
deriving DecidableEq, Repr

/-- The slice of component state read and written by `addTask`. -/
structure TasksState where
  tasks : List TaskItem
  dbError : String
  form : NewTaskForm
deriving DecidableEq, Repr

/-- Models `x || undefined` on an optional string: `null` and `""` both
become `undefined`. -/
def strOptTruthy : Option String → Option String
  | some s => if s = "" then none else some s
  | none => none

/-- The comma-split, trimmed, non-empty tag list built by `addTask`. -/
def taskTags (form : NewTaskForm) : List String :=
  ((splitComma form.tags).map jsTrim).filter (fun t => t ≠ "")

/-- The task built by the local-only path of `addTask` (the trailing
`setTasks` prepend). -/
def localNewTask (form : NewTaskForm) (rand : String) (now : Nat) : TaskItem :=
  { id := uid rand now
    title := jsTrim form.title
    desc := strOpt (jsTrim form.desc)
    stage := .inbox
    tags := if (taskTags form).length ≠ 0 then some (taskTags form) else none
    assignee := strOpt (jsTrim form.assignee)
    updatedAt := now }

/-- Source `addTask()` as a state transformer.  `ctx` is
`(workspaceId, profileId)` when both are set; `insertResult` is the
outcome of the remote insert; the audit insert after a successful insert
is fire-and-forget (its outcome is never inspected).  An empty trimmed
title returns unchanged; a remote error sets `dbError` and falls through
to the local-only prepend, exactly as the code does. -/
def addTask (st : TasksState) (ctx : Option (String × String))
    (insertResult : Except String MissionRow) (rand : String) (now : Nat) : TasksState :=
  let title := jsTrim st.form.title
  if title = "" then st
  else
    let localTask : TaskItem := localNewTask st.form rand now
    match ctx with
    | some _ =>
      match insertResult with
      | .ok row =>
        { tasks :=
            { id := row.id
              title := row.title
              desc := strOptTruthy row.description
              stage := .inbox
              tags := row.tags
              assignee := strOpt (jsTrim st.form.assignee)
              updatedAt := ((row.updated_at).orElse (fun _ => row.created_at)).getD now }
            :: st.tasks
          dbError := st.dbError
          form := emptyTaskForm }
      | .error msg =>
        { tasks := localTask :: st.tasks, dbError := msg, form := emptyTaskForm }
    | none =>
      { tasks := localTask :: st.tasks, dbError := st.dbError, form := emptyTaskForm }

/-! ## Mission events polling effect -/

/-- The slice of component state owned by the mission-events poll. -/
structure EventsState where
  events : List TranscriptEvent
  eventsError : String
deriving DecidableEq, Repr

/-- Source `fmtMissionEvent(type, payload)` (string truthiness of
`payload?.title` and `payload?.status` modelled explicitly;
`JSON.stringify(payload)` is the abstract `rendered` field). -/
def fmtMissionEvent (ty : String) (payload : Option PayloadObj) : String :=
  if ty = "MISSION_CREATED" then
    "Created mission: " ++
      (match strOptTruthy (payload.bind PayloadObj.title) with
       | some t => t
       | none => "(untitled)")
  else if ty = "STATUS_CHANGED" then
    "Status changed → " ++
      (match strOptTruthy (payload.bind PayloadObj.status) with
       | some st => st
       | none => "(unknown)")
  else
    match payload with
    | some p => ty ++ ": " ++ p.rendered
    | none => ty

/-- `String(r.type || "event")`: null and empty type fall back to "event". -/
def rowKind (r : EventRow) : String :=
  match r.typ with
  | some t => if t = "" then "event" else t
  | none => "event"

/-- The row-to-event mapping inside `tickMissionEvents`. -/
def rowToEvent (r : EventRow) : TranscriptEvent :=
  { ts := r.created_at
    kind := rowKind r
    text := some (fmtMissionEvent (rowKind r) r.payload)
    tool := none
    raw := some r }

/-- The mission-events effect: with no workspace identifier it clears the
event list and shows the explicit waiting state without fetching (the
`fetchResult` parameter is ignored in that branch); with a workspace it
runs one `tickMissionEvents`, which on success replaces the list wholesale
and clears the error, and on failure clears the list and surfaces the
error message. -/
def missionEventsEffect (workspaceId : Option String)
    (fetchResult : Except String (List EventRow)) (_st : EventsState) : EventsState :=
  match workspaceId with
  | none => { events := [], eventsError := "Waiting for workspace..." }
  | some _ =>
    match fetchResult with
    | .ok rows => { events := rows.map rowToEvent, eventsError := "" }
    | .error msg => { events := [], eventsError := msg }

/-! ## Concrete inputs used by scenario theorems and witnesses -/

/-- Scenario session `{key:"a", updatedAt:100, label:"Orbit handles X"}`. -/
def scSessionA : SessionItem := ⟨"a", "", some "Orbit handles X", none, some 100⟩

/-- Scenario session `{key:"b", updatedAt:200, label:"unlabeled"}`. -/
def scSessionB : SessionItem := ⟨"b", "", some "unlabeled", none, some 200⟩

/-- Two sessions sharing one key, first matching Orbit explicitly. -/
def dupSessionA : SessionItem := ⟨"x", "", some "Orbit", none, some 1⟩

/-- Two sessions sharing one key, second matching Forge explicitly. -/
def dupSessionB : SessionItem := ⟨"x", "", some "Forge", none, some 2⟩

/-- Two distinct-key sessions, the older one matching Forge explicitly. -/
def wSessions : List SessionItem :=
  [⟨"a", "", some "forge work", none, some 10⟩, ⟨"b", "", some "plain", none, some 20⟩]

/-- A concrete lead for witnesses. -/
def wLead : LeadItem := ⟨"1", "Nia", "Acme", none, .lead, none, none, 5⟩

/-- A concrete task for witnesses. -/
def wTask : TaskItem := ⟨"t1", "Polish UI", none, .assigned, none, none, 50⟩

/-- A concrete add-mission form for witnesses. -/
def wTaskForm : NewTaskForm := ⟨" Ship it ", "", "", ""⟩

/-- A concrete add-lead form for witnesses. -/
def wLeadForm : NewLeadForm := ⟨" Ada ", "Initech", " CTO ", "", ""⟩

/-- The three-event stream of the feed-count scenario. -/
def scFeedEvents : List TranscriptEvent :=
  [⟨none, "tool_call", none, none, none⟩,
   ⟨none, "message", none, none, none⟩,
   ⟨none, "status", none, none, none⟩]

/-! ## Helper lemmas about `uid` -/

theorem hexChars_ne_nil (n : Nat) : hexChars n ≠ [] := by
  rw [hexChars]
  split
  · simp
  · simp

theorem uid_data (rand : String) (now : Nat) :
    (uid rand now).data = rand.data ++ hexChars now := by
  cases rand
  rfl

theorem uid_ne_empty (rand : String) (now : Nat) : uid rand now ≠ "" := by
  intro h
  have hd := congrArg String.data h
  rw [uid_data] at hd
  have : hexChars now = [] := by
    cases hx : rand.data ++ hexChars now with
    | nil => exact (List.append_eq_nil.mp hx).2
    | cons a l => rw [hx] at hd; exact absurd hd (by simp [String.data])
  exact hexChars_ne_nil now this

theorem hexVal_hexDigit (n : Nat) (h : n < 16) : hexVal (hexDigit n) = n := by
  interval_cases n <;> decide

theorem hexDecode_hexChars (n : Nat) : hexDecode (hexChars n) = n := by
  induction n using Nat.strong_induction_on with
  | _ n ih =>
    rw [hexChars]
    split
    · rename_i h
      simp [hexDecode, List.foldl, hexVal_hexDigit n h]
    · rename_i h
      have hlt : n / 16 < n := Nat.div_lt_self (by omega) (by omega)
      have hmod : n % 16 < 16 := Nat.mod_lt _ (by omega)
      show List.foldl _ 0 (hexChars (n / 16) ++ [hexDigit (n % 16)]) = n
      rw [List.foldl_append]
      show hexDecode (hexChars (n / 16)) * 16 + hexVal (hexDigit (n % 16)) = n
      rw [ih _ hlt, hexVal_hexDigit _ hmod]
      omega

theorem uid_inj_now (rand : String) {n m : Nat} (h : uid rand n = uid rand m) : n = m := by
  have hd := congrArg String.data h
  rw [uid_data, uid_data] at hd
  have hx := List.append_cancel_left hd
  have h2 := congrArg hexDecode hx
  rwa [hexDecode_hexChars, hexDecode_hexChars] at h2

/-- `x.trim() || undefined` is `undefined` exactly for empty trims. -/
theorem strOpt_eq_none (s : String) : strOpt s = none ↔ s = "" := by
  unfold strOpt
  split <;> simp_all

/-! ## Claim theorems -/

/-- C5: the task-stage / mission-status mapping is a bijection: both
round trips are the identity, and both directions are total Lean
functions over the five-element types. -/
theorem stage_status_bijection :
    (∀ s : TaskStage, missionStatusToTaskStage (taskStageToMissionStatus s) = s) ∧
    (∀ m : MissionStatus, taskStageToMissionStatus (missionStatusToTaskStage m) = m) := by
  constructor
  · intro s; cases s <;> rfl
  · intro m; cases m <;> rfl

/-- C4: `classifyEvent` follows the fixed precedence: any event with a
truthy (non-empty) tool field is `tools` whatever its kind — in
particular kind "decision" with a tool classifies as `tools` — and kind
"tool_decision" without a tool classifies as `decisions`, not `tools`. -/
theorem classify_precedence :
    (∀ ev : TranscriptEvent, hasToolVal ev.tool = true → classifyEvent ev = Category.tools) ∧
    (∀ (ts : Option Nat) (text : Option String) (raw : Option EventRow) (t : String),
        t ≠ "" → classifyEvent ⟨ts, "decision", text, some t, raw⟩ = Category.tools) ∧
    (∀ (ts : Option Nat) (text : Option String) (raw : Option EventRow),
        classifyEvent ⟨ts, "tool_decision", text, none, raw⟩ = Category.decisions) := by
  refine ⟨?_, ?_, ?_⟩
  · intro ev h
    simp [classifyEvent, h]
  · intro ts text raw t ht
    have h : hasToolVal (some t) = true := by simp [hasToolVal, ht]
    simp [classifyEvent, h]
  · intro ts text raw
    rfl

/-- Witness for C4 at concrete events. -/
theorem classify_precedence_witness :
    (hasToolVal (some "x") = true ∧
      classifyEvent ⟨none, "zzz", none, some "x", none⟩ = Category.tools) ∧
    (("x" : String) ≠ "" ∧
      classifyEvent ⟨none, "decision", none, some "x", none⟩ = Category.tools) ∧
    classifyEvent ⟨none, "tool_decision", none, none, none⟩ = Category.decisions :=
  ⟨⟨by decide, classify_precedence.1 ⟨none, "zzz", none, some "x", none⟩ (by decide)⟩,
   ⟨by decide, classify_precedence.2.1 none none none "x" (by decide)⟩,
   classify_precedence.2.2 none none none⟩

/-- C7: with no workspace identifier the mission-events effect empties
the event list and shows the explicit waiting state no matter what a
fetch would return (it never fetches); with a workspace, a failed fetch
empties the event list (prior events are dropped) and surfaces the error
string. -/
theorem missionEvents_guard_and_failure :
    (∀ (fetchResult : Except String (List EventRow)) (st : EventsState),
        missionEventsEffect none fetchResult st =
          ⟨[], "Waiting for workspace..."⟩) ∧
    (∀ (ws msg : String) (st : EventsState),
        missionEventsEffect (some ws) (Except.error msg) st = ⟨[], msg⟩) := by
  constructor
  · intro fetchResult st; rfl
  · intro ws msg st; rfl

/-- C3 counterexample: on the scenario input the recency fill hands the
most recent unclaimed session `b` the identity `pool[0] = "Orbit"`
(already taken by the explicit match), not `"Forge"` — the produced
binding is not `{a: Orbit, b: Forge}`. -/
theorem scenario_binding_counterexample :
    (withNicknamesPool ["Orbit", "Forge"] [scSessionA, scSessionB]).map Prod.snd ≠
      ["Orbit", "Forge"] ∧
    ((withNicknamesPool ["Orbit", "Forge"] [scSessionA, scSessionB]).map Prod.snd).getD 1 ""
      = "Orbit" := by
  constructor
  · decide
  · decide

/-- C3 amended: the scenario produces the binding `{a: Orbit, b: Orbit}`:
the fill counter starts at 0, counts only unclaimed sessions and does not
skip identities already taken by explicit matches, so `b` receives
`pool[0 % k] = "Orbit"`.  The same happens under the full five-name pool
of the shipped code. -/
theorem scenario_binding_amended :
    (withNicknamesPool ["Orbit", "Forge"] [scSessionA, scSessionB]).map Prod.snd =
      ["Orbit", "Orbit"] ∧
    (withNicknames [scSessionA, scSessionB]).map Prod.snd = ["Orbit", "Orbit"] := by
  constructor
  · decide
  · decide

/-! ### C8: feed counts -/

theorem feedCounts_foldl_spec (evs : List TranscriptEvent) : ∀ c : FeedCounts,
    evs.foldl feedStep c =
      ⟨c.all,
       c.tools + evs.countP (fun e => classifyEvent e == Category.tools),
       c.messages + evs.countP (fun e => classifyEvent e == Category.messages),
       c.decisions + evs.countP (fun e => classifyEvent e == Category.decisions),
       c.docs + evs.countP (fun e => classifyEvent e == Category.docs),
       c.status + evs.countP (fun e => classifyEvent e == Category.status)⟩ := by
  induction evs with
  | nil => intro c; cases c; simp [List.countP_nil]
  | cons e rest ih =>
    intro c
    rw [List.foldl_cons, ih]
    cases hc : classifyEvent e <;>
      simp [feedStep, hc, List.countP_cons] <;> omega

/-- C8: on the three-event scenario the derived counts are
`{all:3, tools:1, messages:1, decisions:0, docs:0, status:1}`; in
general `all` equals the stream length and every per-category counter
equals the number of events the classifier maps to that category. -/
theorem feedCounts_spec :
    feedCounts scFeedEvents = ⟨3, 1, 1, 0, 0, 1⟩ ∧
    ∀ evs : List TranscriptEvent,
      (feedCounts evs).all = evs.length ∧
      (feedCounts evs).tools =
        (evs.filter (fun e => classifyEvent e == Category.tools)).length ∧
      (feedCounts evs).messages =
        (evs.filter (fun e => classifyEvent e == Category.messages)).length ∧
      (feedCounts evs).decisions =
        (evs.filter (fun e => classifyEvent e == Category.decisions)).length ∧
      (feedCounts evs).docs =
        (evs.filter (fun e => classifyEvent e == Category.docs)).length ∧
      (feedCounts evs).status =
        (evs.filter (fun e => classifyEvent e == Category.status)).length := by
  constructor
  · decide
  · intro evs
    rw [feedCounts, feedCounts_foldl_spec evs ⟨evs.length, 0, 0, 0, 0, 0⟩]
    simp [List.countP_eq_length_filter]

/-- C10: `moveLead` rewrites only the matching lead, changing only its
`stage` and `updatedAt`; positions without the id are untouched, and a
list containing the id nowhere is returned unchanged.  (`moveLead` is a
pure list transform — its body is a single local `setLeads`; it takes no
remote-outcome input at all.) -/
theorem moveLead_frame (leads : List LeadItem) (id : String) (stage : LeadStage) (now : Nat) :
    ((∀ l ∈ leads, l.id ≠ id) → moveLead leads id stage now = leads) ∧
    (moveLead leads id stage now).length = leads.length ∧
    (∀ i l, leads.get? i = some l →
      (l.id = id → (moveLead leads id stage now).get? i =
          some { l with stage := stage, updatedAt := now }) ∧
      (l.id ≠ id → (moveLead leads id stage now).get? i = some l)) := by
  refine ⟨?_, by simp [moveLead], ?_⟩
  · intro h
    induction leads with
    | nil => rfl
    | cons a rest ih =>
      have ha : ¬ a.id = id := h a (List.mem_cons_self _ _)
      have hrest := ih (fun x hx => h x (List.mem_cons_of_mem _ hx))
      simp only [moveLead, List.map_cons, if_neg ha]
      simpa [moveLead] using hrest
  · intro i l hl
    rw [List.get?_eq_getElem?] at hl
    constructor <;> intro hid <;>
      rw [moveLead, List.get?_eq_getElem?, List.getElem?_map, hl] <;>
      simp [hid]

/-- Witness for C10 at a concrete one-lead list. -/
theorem moveLead_frame_witness :
    ([wLead].get? 0 = some wLead ∧ wLead.id = "1") ∧
    (moveLead [wLead] "1" LeadStage.won 9).get? 0 =
      some { wLead with stage := LeadStage.won, updatedAt := 9 } :=
  ⟨⟨rfl, rfl⟩, ((moveLead_frame [wLead] "1" LeadStage.won 9).2.2 0 wLead rfl).1 rfl⟩

/-- C9: `addLead` is a no-op when the trimmed name or company is empty;
otherwise it prepends exactly one lead at stage `lead` with the generated
id, the current timestamp, the trimmed name and company, and with
role/value/nextStep present exactly when their trimmed values are
non-empty; the existing leads are untouched (they are the tail). -/
theorem addLead_spec (form : NewLeadForm) (leads : List LeadItem) (rand : String) (now : Nat) :
    ((jsTrim form.name = "" ∨ jsTrim form.company = "") →
      addLead form leads rand now = leads) ∧
    (jsTrim form.name ≠ "" → jsTrim form.company ≠ "" →
      ∃ l : LeadItem,
        addLead form leads rand now = l :: leads ∧
        l.stage = LeadStage.lead ∧
        l.id = uid rand now ∧
        l.id ≠ "" ∧
        l.updatedAt = now ∧
        l.name = jsTrim form.name ∧
        l.company = jsTrim form.company ∧
        (l.role = none ↔ jsTrim form.role = "") ∧
        (l.value = none ↔ jsTrim form.value = "") ∧
        (l.nextStep = none ↔ jsTrim form.nextStep = "")) := by
  constructor
  · intro h
    rcases h with h | h <;> simp [addLead, h]
  · intro h1 h2
    refine ⟨{ id := uid rand now, name := jsTrim form.name, company := jsTrim form.company,
              role := strOpt (jsTrim form.role), stage := .lead,
              value := strOpt (jsTrim form.value), nextStep := strOpt (jsTrim form.nextStep),
              updatedAt := now }, ?_, rfl, rfl, uid_ne_empty rand now, rfl, rfl, rfl,
            strOpt_eq_none _, strOpt_eq_none _, strOpt_eq_none _⟩
    simp [addLead, h1, h2]

/-- Witness for C9 at a concrete form. -/
theorem addLead_spec_witness :
    (jsTrim wLeadForm.name ≠ "" ∧ jsTrim wLeadForm.company ≠ "") ∧
    ∃ l : LeadItem,
      addLead wLeadForm [wLead] "ab" 7 = l :: [wLead] ∧
      l.stage = LeadStage.lead ∧
      l.id = uid "ab" 7 ∧
      l.id ≠ "" ∧
      l.updatedAt = 7 ∧
      l.name = jsTrim wLeadForm.name ∧
      l.company = jsTrim wLeadForm.company ∧
      (l.role = none ↔ jsTrim wLeadForm.role = "") ∧
      (l.value = none ↔ jsTrim wLeadForm.value = "") ∧
      (l.nextStep = none ↔ jsTrim wLeadForm.nextStep = "") :=
  ⟨⟨by decide, by decide⟩,
   (addLead_spec wLeadForm [wLead] "ab" 7).2 (by decide) (by decide)⟩

/-- C1: when the workspace context exists and the remote status update
fails, `moveTask` restores the entire pre-mutation task list (so the
task with the moved id shows its original stage and `updatedAt`) and
surfaces the error string in `dbError`; the ignored audit outcome plays
no part. -/
theorem moveTask_rollback (st : MoveState) (id : String) (A B : TaskStage) (now : Nat)
    (msg : String) (audit : Except String Unit) (t : TaskItem)
    (ht : t ∈ st.tasks) (hid : t.id = id) (hstage : t.stage = A) :
    (moveTask st id B now true (Except.error msg) audit).tasks = st.tasks ∧
    t ∈ (moveTask st id B now true (Except.error msg) audit).tasks ∧
    t.id = id ∧ t.stage = A ∧
    (moveTask st id B now true (Except.error msg) audit).dbError = msg :=
  ⟨rfl, ht, hid, hstage, rfl⟩

/-- Witness for C1: one concrete task moved `assigned → done` against a
failing remote update ends up unchanged, with the error surfaced. -/
theorem moveTask_rollback_witness :
    (wTask ∈ [wTask] ∧ wTask.id = "t1" ∧ wTask.stage = TaskStage.assigned) ∧
    ((moveTask ⟨[wTask], ""⟩ "t1" TaskStage.done 99 true (Except.error "boom")
        (Except.ok ())).tasks = [wTask] ∧
      wTask ∈ (moveTask ⟨[wTask], ""⟩ "t1" TaskStage.done 99 true (Except.error "boom")
        (Except.ok ())).tasks ∧
      wTask.id = "t1" ∧ wTask.stage = TaskStage.assigned ∧
      (moveTask ⟨[wTask], ""⟩ "t1" TaskStage.done 99 true (Except.error "boom")
        (Except.ok ())).dbError = "boom") :=
  ⟨⟨by decide, rfl, rfl⟩,
   moveTask_rollback ⟨[wTask], ""⟩ "t1" TaskStage.assigned TaskStage.done 99 "boom"
     (Except.ok ()) wTask (by decide) rfl rfl⟩

/-- C6: when the trimmed title is non-empty and either no workspace/user
context exists or the remote insert fails, `addTask` falls through to the
local-only path: exactly one new task is prepended, at stage `inbox`,
carrying the trimmed title (the input is not dropped), the locally
generated non-empty id `uid rand now`, and the current timestamp; the id
generator is injective in the clock reading for a fixed random part. -/
theorem addTask_fallback (st : TasksState) (ctx : Option (String × String))
    (insertResult : Except String MissionRow) (rand : String) (now : Nat)
    (htitle : jsTrim st.form.title ≠ "")
    (hfall : ctx = none ∨ ∃ msg, insertResult = Except.error msg) :
    ∃ t : TaskItem,
      (addTask st ctx insertResult rand now).tasks = t :: st.tasks ∧
      t.stage = TaskStage.inbox ∧
      t.id = uid rand now ∧
      t.id ≠ "" ∧
      t.updatedAt = now ∧
      t.title = jsTrim st.form.title ∧
      (∀ m : Nat, uid rand m = t.id → m = now) := by
  rcases hfall with hctx | ⟨msg, hins⟩
  · subst hctx
    exact ⟨localNewTask st.form rand now, by simp [addTask, htitle], rfl, rfl,
      uid_ne_empty rand now, rfl, rfl, fun m hm => uid_inj_now rand hm⟩
  · subst hins
    cases ctx with
    | none =>
      exact ⟨localNewTask st.form rand now, by simp [addTask, htitle], rfl, rfl,
        uid_ne_empty rand now, rfl, rfl, fun m hm => uid_inj_now rand hm⟩
    | some p =>
      exact ⟨localNewTask st.form rand now, by simp [addTask, htitle], rfl, rfl,
        uid_ne_empty rand now, rfl, rfl, fun m hm => uid_inj_now rand hm⟩

/-- Witness for C6: a concrete form with no workspace context. -/
theorem addTask_fallback_witness :
    jsTrim wTaskForm.title ≠ "" ∧
    ∃ t : TaskItem,
      (addTask ⟨[wTask], "", wTaskForm⟩ none (Except.error "down") "ab" 7).tasks =
        t :: [wTask] ∧
      t.stage = TaskStage.inbox ∧
      t.id = uid "ab" 7 ∧
      t.id ≠ "" ∧
      t.updatedAt = 7 ∧
      t.title = jsTrim wTaskForm.title ∧
      (∀ m : Nat, uid "ab" m = t.id → m = 7) :=
  ⟨by decide,
   addTask_fallback ⟨[wTask], "", wTaskForm⟩ none (Except.error "down") "ab" 7
     (by decide) (Or.inl rfl)⟩

/-! ### C2: the identity assignment engine -/

theorem mapGet_set_self (m : NickMap) (k v : String) :
    mapGet (mapSet m k v) k = some v := by
  simp [mapGet, mapSet]

theorem mapGet_set_ne (m : NickMap) (k k' v : String) (h : k ≠ k') :
    mapGet (mapSet m k v) k' = mapGet m k' := by
  simp [mapGet, mapSet, h]

/-- Every value stored in the map belongs to `pool`. -/
def valsIn (m : NickMap) (pool : List String) : Prop :=
  ∀ k v, mapGet m k = some v → v ∈ pool

theorem valsIn_nil (pool : List String) : valsIn [] pool := by
  intro k v h
  simp [mapGet] at h

theorem valsIn_set {m : NickMap} {pool : List String} {k v : String}
    (hm : valsIn m pool) (hv : v ∈ pool) : valsIn (mapSet m k v) pool := by
  intro q w hq
  by_cases e : k = q
  · subst e
    rw [mapGet_set_self] at hq
    cases hq
    exact hv
  · rw [mapGet_set_ne _ _ _ _ e] at hq
    exact hm q w hq

theorem guess_mem_pool {pool : List String} {s : SessionItem} {g : String}
    (h : guessNicknamePool pool s = some g) : g ∈ pool :=
  List.mem_of_find?_eq_some h

/-- The explicit pass never touches a key held by no session in its list. -/
theorem explicitPass_get_skip (pool : List String) (l : List SessionItem) (k : String) :
    (∀ s ∈ l, s.key ≠ k) → ∀ m, mapGet (explicitPass pool l m) k = mapGet m k := by
  induction l with
  | nil => intro _ m; rfl
  | cons s rest ih =>
    intro h m
    have hk : s.key ≠ k := h s (List.mem_cons_self _ _)
    have hrest : ∀ x ∈ rest, x.key ≠ k := fun x hx => h x (List.mem_cons_of_mem _ hx)
    cases hg : guessNicknamePool pool s with
    | some g =>
      simp only [explicitPass, hg]
      rw [ih hrest, mapGet_set_ne _ _ _ _ hk]
    | none =>
      simp only [explicitPass, hg]
      exact ih hrest m

/-- The explicit pass stores only pool identities. -/
theorem explicitPass_valsIn (pool : List String) (l : List SessionItem) :
    ∀ m, valsIn m pool → valsIn (explicitPass pool l m) pool := by
  induction l with
  | nil => intro m hm; exact hm
  | cons s rest ih =>
    intro m hm
    cases hg : guessNicknamePool pool s with
    | some g =>
      simp only [explicitPass, hg]
      exact ih _ (valsIn_set hm (guess_mem_pool hg))
    | none =>
      simp only [explicitPass, hg]
      exact ih m hm

theorem getD_mem_of_lt (l : List String) (i : Nat) (h : i < l.length) :
    l.getD i "" ∈ l := by
  induction l generalizing i with
  | nil => simp at h
  | cons a t ih =>
    cases i with
    | zero => simp
    | succ j =>
      have hj : j < t.length := by simpa using h
      simpa using Or.inr (ih j hj)

/-- The round-robin slot handed out by the fill pass is a pool identity. -/
theorem fill_slot_mem {pool : List String} (hp : pool ≠ []) (i : Nat) :
    pool.getD (i % pool.length) "" ∈ pool :=
  getD_mem_of_lt pool _ (Nat.mod_lt _ (List.length_pos.mpr hp))

/-- The fill pass stores only pool identities. -/
theorem fillPass_valsIn (pool : List String) (hp : pool ≠ []) (l : List SessionItem) :
    ∀ m i, valsIn m pool → valsIn (fillPass pool l m i) pool := by
  induction l with
  | nil => intro m i hm; exact hm
  | cons s rest ih =>
    intro m i hm
    cases hs : mapHas m s.key with
    | true =>
      simp only [fillPass, hs, if_true]
      exact ih m i hm
    | false =>
      simp only [fillPass, hs, Bool.false_eq_true, if_false]
      exact ih _ _ (valsIn_set hm (fill_slot_mem hp i))

/-- The fill pass never rebinds a key that is already bound, and bound
keys stay bound. -/
theorem fillPass_get_has (pool : List String) (l : List SessionItem) (k : String) :
    ∀ m i, mapHas m k = true →
      mapGet (fillPass pool l m i) k = mapGet m k ∧
      mapHas (fillPass pool l m i) k = true := by
  induction l with
  | nil => intro m i h; exact ⟨rfl, h⟩
  | cons s rest ih =>
    intro m i h
    cases hs : mapHas m s.key with
    | true =>
      simp only [fillPass, hs, if_true]
      exact ih m i h
    | false =>
      have hneq : s.key ≠ k := by
        intro e
        rw [e, h] at hs
        cases hs
      simp only [fillPass, hs, Bool.false_eq_true, if_false]
      have h2 : mapHas (mapSet m s.key (pool.getD (i % pool.length) "")) k = true := by
        rw [mapHas, mapGet_set_ne _ _ _ _ hneq]
        exact h
      obtain ⟨hg1, hg2⟩ := ih _ _ h2
      refine ⟨?_, hg2⟩
      rw [hg1, mapGet_set_ne _ _ _ _ hneq]

/-- After the fill pass every session of its input list is bound. -/
theorem fillPass_covers (pool : List String) (l : List SessionItem) :
    ∀ m i, ∀ s ∈ l, mapHas (fillPass pool l m i) s.key = true := by
  induction l with
  | nil => intro m i s hs; cases hs
  | cons a rest ih =>
    intro m i s hs
    rcases List.mem_cons.mp hs with rfl | hs'
    · cases ha : mapHas m s.key with
      | true =>
        simp only [fillPass, ha, if_true]
        exact (fillPass_get_has pool rest s.key m i ha).2
      | false =>
        simp only [fillPass, ha, Bool.false_eq_true, if_false]
        have hset : mapHas (mapSet m s.key (pool.getD (i % pool.length) "")) s.key = true := by
          rw [mapHas, mapGet_set_self]
          rfl
        exact (fillPass_get_has pool rest s.key _ _ hset).2
    · cases ha : mapHas m a.key with
      | true =>
        simp only [fillPass, ha, if_true]
        exact ih m i s hs'
      | false =>
        simp only [fillPass, ha, Bool.false_eq_true, if_false]
        exact ih _ _ s hs'

/-- With pairwise-distinct keys, a session with an explicit match is
bound to exactly that match by the explicit pass. -/
theorem explicitPass_get_of_guess (pool : List String) (l : List SessionItem) :
    ∀ m s g, s ∈ l → guessNicknamePool pool s = some g →
      (l.map SessionItem.key).Nodup →
      mapGet (explicitPass pool l m) s.key = some g := by
  induction l with
  | nil => intro m s g hs _ _; cases hs
  | cons a rest ih =>
    intro m s g hs hg hnd
    rw [List.map_cons] at hnd
    have hnd' := List.nodup_cons.mp hnd
    rcases List.mem_cons.mp hs with rfl | hs'
    · simp only [explicitPass, hg]
      have hrest : ∀ x ∈ rest, x.key ≠ s.key := by
        intro x hx e
        exact hnd'.1 (e ▸ List.mem_map_of_mem SessionItem.key hx)
      rw [explicitPass_get_skip pool rest s.key hrest, mapGet_set_self]
    · cases hg2 : guessNicknamePool pool a with
      | some ga =>
        simp only [explicitPass, hg2]
        exact ih _ s g hs' hg hnd'.2
      | none =>
        simp only [explicitPass, hg2]
        exact ih m s g hs' hg hnd'.2

theorem mem_insertDesc (x s : SessionItem) (l : List SessionItem) :
    x ∈ insertDesc s l ↔ x = s ∨ x ∈ l := by
  induction l with
  | nil => simp [insertDesc]
  | cons t ts ih =>
    simp only [insertDesc]
    split
    · simp only [List.mem_cons]
    · simp only [List.mem_cons, ih]
      tauto

theorem mem_sortByRecency (x : SessionItem) (l : List SessionItem) :
    x ∈ sortByRecency l ↔ x ∈ l := by
  suffices h : ∀ acc, x ∈ l.foldl (fun a s => insertDesc s a) acc ↔ x ∈ l ∨ x ∈ acc by
    simpa [sortByRecency] using h []
  induction l with
  | nil => intro acc; simp
  | cons s rest ih =>
    intro acc
    rw [List.foldl_cons, ih, mem_insertDesc]
    simp only [List.mem_cons]
    tauto

/-- Assignment theorem for any non-empty pool: every produced binding is
a pool identity, and — keys being pairwise distinct — explicitly matched
sessions keep their match. -/
theorem withNicknamesPool_assignment (pool : List String) (hp : pool ≠ [])
    (sessions : List SessionItem) (hnd : (sessions.map SessionItem.key).Nodup) :
    (∀ q ∈ withNicknamesPool pool sessions, q.2 ∈ pool) ∧
    (∀ q ∈ withNicknamesPool pool sessions, ∀ g,
       guessNicknamePool pool q.1 = some g → q.2 = g) := by
  have hq : withNicknamesPool pool sessions =
      sessions.map (fun s =>
        (s, (mapGet (fillPass pool (sortByRecency sessions)
              (explicitPass pool sessions []) 0) s.key).getD "Agent")) := rfl
  have hvals : valsIn (fillPass pool (sortByRecency sessions)
      (explicitPass pool sessions []) 0) pool :=
    fillPass_valsIn pool hp _ _ _ (explicitPass_valsIn pool sessions [] (valsIn_nil pool))
  constructor
  · intro q hmem
    rw [hq] at hmem
    obtain ⟨s, hs, rfl⟩ := List.mem_map.mp hmem
    have hcov : mapHas (fillPass pool (sortByRecency sessions)
        (explicitPass pool sessions []) 0) s.key = true :=
      fillPass_covers pool _ _ 0 s ((mem_sortByRecency s sessions).mpr hs)
    obtain ⟨v, hv⟩ := Option.isSome_iff_exists.mp hcov
    simp only [hv, Option.getD_some]
    exact hvals _ _ hv
  · intro q hmem g hg
    rw [hq] at hmem
    obtain ⟨s, hs, rfl⟩ := List.mem_map.mp hmem
    have h0 : mapGet (explicitPass pool sessions []) s.key = some g :=
      explicitPass_get_of_guess pool sessions [] s g hs hg hnd
    have hhas : mapHas (explicitPass pool sessions []) s.key = true := by
      rw [mapHas, h0]
      rfl
    have h1 : mapGet (fillPass pool (sortByRecency sessions)
        (explicitPass pool sessions []) 0) s.key = some g := by
      rw [(fillPass_get_has pool _ s.key _ 0 hhas).1, h0]
    simp only [h1, Option.getD_some]

/-- C2 (amended): for sessions with pairwise-distinct keys, the shipped
`withNicknames` gives every session exactly one identity of the fixed
five-name pool, and any session whose metadata contains a pool name
keeps its (first) explicit match regardless of recency order. -/
theorem withNicknames_assignment (sessions : List SessionItem)
    (hnd : (sessions.map SessionItem.key).Nodup) :
    (∀ p ∈ withNicknames sessions, p.2 ∈ AGENT_NICKNAMES) ∧
    (∀ p ∈ withNicknames sessions, ∀ g, guessNickname p.1 = some g → p.2 = g) :=
  withNicknamesPool_assignment AGENT_NICKNAMES (by decide) sessions hnd

/-- Witness for C2 on a concrete distinct-key session list. -/
theorem withNicknames_assignment_witness :
    (wSessions.map SessionItem.key).Nodup ∧
    ((∀ p ∈ withNicknames wSessions, p.2 ∈ AGENT_NICKNAMES) ∧
     (∀ p ∈ withNicknames wSessions, ∀ g, guessNickname p.1 = some g → p.2 = g)) :=
  ⟨by decide, withNicknames_assignment wSessions (by decide)⟩

/-- C2 counterexample (duplicate keys): two sessions sharing key "x",
one matching Orbit and one matching Forge — the later `Map.set` wins, so
the Orbit-matching session is displayed as "Forge", losing its explicit
match; the claim fails on session lists that repeat a key. -/
theorem withNicknames_dupkey_counterexample :
    guessNickname dupSessionA = some "Orbit" ∧
    (withNicknames [dupSessionA, dupSessionB]).map Prod.snd = ["Forge", "Forge"] ∧
    ("Forge" : String) ≠ "Orbit" :=
  ⟨by decide, by decide, by decide⟩

end MissionControl
